import Mathlib

/-!
Verification of the serene helper packages (middleware chaining, healthz
endpoint, context attribute stores, HTTP attribute-extraction middleware,
ECS log formatter) against their natural-language specification.

The Go code is shallowly embedded: `slog.Attr` values become an inductive
`AttrValue` paired with a key string, `context.Context` becomes an explicit
record holding the two attribute stores, `http.Handler` becomes a function
from a context and a request to a trace of observable events, and the
underlying JSON sink becomes a function field returning `Except`.
-/

namespace Serene

/-- Model of a `slog.Value`: strings, integers, times, the nil zero value,
and groups of attributes (`slog.GroupValue`). -/
inductive AttrValue where
  | nil : AttrValue
  | str : String → AttrValue
  | int : Int → AttrValue
  | time : Nat → AttrValue
  | group : List (String × AttrValue) → AttrValue

/-- Model of `slog.Attr`: a key paired with a value. -/
abbrev Attr := String × AttrValue

/-- Model of an `*http.Request` for the purposes of the extractors and
middleware: a method and a header multimap (first value wins on `Get`). -/
structure Request where
  method : String
  headers : List (String × String)
deriving DecidableEq

/-- `r.Header.Get(name)`: the first value set for the header, or the empty
string when the header is absent. -/
def Request.headerGet (r : Request) (name : String) : String :=
  match r.headers.find? (fun h => h.1 == name) with
  | some h => h.2
  | none => ""

/-- Model of a `context.Context` restricted to the two attribute-store keys
used by the `log` package (`labelsAttributes` and `ecsAttributes`).
`none` models a context in which `ctx.Value(key)` is not a `[]slog.Attr`. -/
structure Context where
  labelsStore : Option (List Attr)
  ecsStore : Option (List Attr)

/-- `GetLabelAttrs` from the `log` package: the stored label attributes, or
the empty slice when the context carries none. -/
def GetLabelAttrs (ctx : Context) : List Attr :=
  match ctx.labelsStore with
  | some loadedAttrs => loadedAttrs
  | none => []

/-- `GetECSAttrs` from the `log` package. -/
def GetECSAttrs (ctx : Context) : List Attr :=
  match ctx.ecsStore with
  | some loadedAttrs => loadedAttrs
  | none => []

/-- `AddLabelAttrs`: appends the existing label attributes after the new
ones (`attrs = append(attrs, GetLabelAttrs(ctx)...)`) and stores the result
in a fresh context value. -/
def AddLabelAttrs (ctx : Context) (attrs : List Attr) : Context :=
  { ctx with labelsStore := some (attrs ++ GetLabelAttrs ctx) }

/-- `addECSAttrs`: same shape as `AddLabelAttrs` for the ECS store. -/
def addECSAttrs (ctx : Context) (attrs : List Attr) : Context :=
  { ctx with ecsStore := some (attrs ++ GetECSAttrs ctx) }

/-- `LogExtract`: a function from a request to an optional attribute; the
Go pair `(slog.Attr, bool)` is modelled as `Option Attr`. -/
abbrev LogExtract := Request → Option Attr

/-- `ExtractHeaderRename(name, rename)`: emit the header's value under the
new key when the value is non-empty, and report absence otherwise. -/
def ExtractHeaderRename (name : String) (rename : String) : LogExtract :=
  fun r =>
    let val := r.headerGet name
    if val.length ≠ 0 then some (rename, AttrValue.str val) else none

/-- Observable events produced while a request is handled: `enter name`
records that the middleware called `name` ran its wrapping effect, and
`info ctx msg` records the emission of one informational log record
(`slog.InfoContext(ctx, msg)`). -/
inductive Event where
  | enter : String → Event
  | info : Context → String → Event

/-- Model of `http.Handler`: serving a request under a context produces a
trace of observable events. -/
abbrev Handler := Context → Request → List Event

/-- `httputils.Middleware`: a handler-to-handler transformation. -/
abbrev Middleware := Handler → Handler

/-- `httputils.ApplyMiddlewares`: starting from `base`, each middleware in
slice order wraps the current handler (`for _, h := range middlewares {
base = h(base) }`). -/
def ApplyMiddlewares (base : Handler) (middlewares : List Middleware) : Handler :=
  middlewares.foldl (fun b h => h b) base

/-- `middlewareOptions` from the `log` package. -/
structure MiddlewareOptions where
  labelExtractors : List LogExtract
  ecsExtractors : List LogExtract
  logRequest : Bool

/-- The extractor loop shared by both stores in `HTTPAttributesMiddleware`:
run each extractor on the request in declared order and collect only the
present results. -/
def extractAttrs (extractors : List LogExtract) (r : Request) : List Attr :=
  extractors.foldl
    (fun acc extract =>
      match extract r with
      | some attr => acc ++ [attr]
      | none => acc)
    []

/-- The context produced by `HTTPAttributesMiddleware` before it invokes the
wrapped handler: ECS attributes are attached first, then label attributes
(`ctx := addECSAttrs(r.Context(), ecsAttributes...)`;
`ctx = AddLabelAttrs(ctx, labelAttributes...)`). -/
def middlewareCtx (options : MiddlewareOptions) (ctx : Context) (r : Request) : Context :=
  let ecsAttributes := extractAttrs options.ecsExtractors r
  let ctx1 := addECSAttrs ctx ecsAttributes
  let labelAttributes := extractAttrs options.labelExtractors r
  AddLabelAttrs ctx1 labelAttributes

/-- `log.HTTPAttributesMiddleware` (with its functional options already
resolved into a `MiddlewareOptions` value): extract attributes into the
context, invoke the wrapped handler with that context, then, when the
`logRequest` flag is set, emit one informational summary record. -/
def HTTPAttributesMiddleware (options : MiddlewareOptions) : Middleware :=
  fun h ctxIn r =>
    let ctx := middlewareCtx options ctxIn r
    h ctx r ++
      (if options.logRequest then [Event.info ctx "HTTP Request handled"] else [])

/-- `LogRequest` functional option: sets the request-logging flag. -/
def LogRequest (o : MiddlewareOptions) : MiddlewareOptions :=
  { o with logRequest := true }

/-- `WithDefaultInfo` functional option: appends an always-present ECS
extractor for `http.request.method`. -/
def WithDefaultInfo (o : MiddlewareOptions) : MiddlewareOptions :=
  { o with ecsExtractors :=
      o.ecsExtractors ++ [fun r => some ("http.request.method", AttrValue.str r.method)] }

/-- Modelled from the spec: `healthz.Dependency` is a generated type whose
definition is not under `src/`; the claims only inspect the boolean half of
a check's result, so a dependency is modelled as its name. -/
structure Dependency where
  name : String
deriving DecidableEq

/-- Modelled from the spec: the generated `healthz.Status` response body,
carrying the collected dependencies and the overall status string. -/
structure Status where
  dependencies : List Dependency
  status : String
deriving DecidableEq

/-- The body of `healthz.HealthzHandler`'s `/status` handler, with each
check function already evaluated to its `(Dependency, bool)` result: status
starts `"OK"`, flips to `"KO"` on any failing check, and every dependency
is collected in order. -/
def HealthzHandler (checks : List (Dependency × Bool)) : Status :=
  let res := checks.foldl
    (fun (acc : List Dependency × String) dCheck =>
      (acc.1 ++ [dCheck.1], if dCheck.2 then acc.2 else "KO"))
    ([], "OK")
  { dependencies := res.1, status := res.2 }

/-! ECS log formatter (`ecshandler` package). `slog.Level` is an `Int`
(`LevelDebug = -4`, `LevelInfo = 0`, `LevelWarn = 4`, `LevelError = 8`). -/

def LevelDebug : Int := -4
def LevelInfo : Int := 0
def LevelWarn : Int := 4
def LevelError : Int := 8

/-- `slog.Level.String()`: the named base level plus a signed offset when
the level does not sit exactly on a named value. -/
def levelString (l : Int) : String :=
  let str := fun (base : String) (val : Int) =>
    if val = 0 then base
    else if val > 0 then base ++ "+" ++ toString val
    else base ++ toString val
  if l < LevelInfo then str "DEBUG" (l - LevelDebug)
  else if l < LevelWarn then str "INFO" (l - LevelInfo)
  else if l < LevelError then str "WARN" (l - LevelWarn)
  else str "ERROR" (l - LevelError)

/-- `strings.ToLower` restricted to ASCII, which is all the level names
use. -/
def goToLower (s : String) : String :=
  String.mk (s.data.map Char.toLower)

/-- The source-location frame that `runtime.CallersFrames([]uintptr{r.PC})`
resolves the record's program counter to; the embedding carries the
resolved frame directly since address resolution has no in-memory model. -/
structure Frame where
  file : String
  line : Int
  function : String

/-- Model of an `slog.Record`: timestamp, severity level, message, the
resolved caller frame standing in for `PC`, and the attribute list that
`AddAttrs` extends. -/
structure Record where
  time : Nat
  level : Int
  message : String
  frame : Frame
  attrs : List Attr

/-- `slog.Record.AddAttrs`: appends to the record's attribute list. -/
def Record.AddAttrs (r : Record) (newAttrs : List Attr) : Record :=
  { r with attrs := r.attrs ++ newAttrs }

def ecsVersion : String := "8.11.0"
def loggerName : String := "log/slog"

def ecsVersionKey : String := "ecs.version"
def timestampKey : String := "@timestamp"
def messageKey : String := "message"
def logLevelKey : String := "log.level"
def logLoggerKey : String := "log.logger"
def fileNameKey : String := "file.name"
def fileLineKey : String := "file.line"
def logOriginKey : String := "log.origin"
def functionKey : String := "function"
def labelsKey : String := "labels"

/-- The default `replaceAttr` of the `ecshandler` options: drop the sink's
built-in `time`, `msg`, `source` and `level` attributes (returning the zero
`slog.Attr{}`) and keep everything else. -/
def defaultReplaceAttr : List String → Attr → Attr :=
  fun _groups a =>
    if a.1 == "time" || a.1 == "msg" || a.1 == "source" || a.1 == "level"
    then ("", AttrValue.nil)
    else a

/-- The identity `ReplaceAttr`, the behaviour of an `slog.JSONHandler`
built with empty `HandlerOptions` as in the package's test. -/
def identityReplaceAttr : List String → Attr → Attr :=
  fun _groups a => a

/-- `ECSHandler`: the embedded `slog.JSONHandler` is represented by its
`ReplaceAttr` option together with the underlying write to the output
stream, which may fail; `levelRenamer` is the configured level-renaming
function. -/
structure ECSHandler where
  replaceAttr : List String → Attr → Attr
  write : List Attr → Except String Unit
  levelRenamer : Int → String

/-- The built-in attributes an `slog.JSONHandler` serializes before the
record's own attributes: `time`, `level` (via `Level.String`) and `msg`. -/
def builtinAttrs (r : Record) : List Attr :=
  [("time", AttrValue.time r.time),
   ("level", AttrValue.str (levelString r.level)),
   ("msg", AttrValue.str r.message)]

/-- The attributes an `slog.JSONHandler` elides from its output: the empty
`slog.Attr{}` (empty key, nil value) and groups with no members. -/
def dropSerialized (a : Attr) : Bool :=
  match a.2 with
  | AttrValue.nil => a.1 == ""
  | AttrValue.group g => g.isEmpty
  | _ => false

/-- The top-level keys of the JSON object an `slog.JSONHandler` emits for a
record: built-in attributes followed by the record's attributes, each
non-group attribute rewritten by `ReplaceAttr` (called with no open
groups), dropping attributes the handler elides. -/
def serializeTop (replaceAttr : List String → Attr → Attr) (r : Record) : List Attr :=
  (builtinAttrs r ++ r.attrs).filterMap (fun a =>
    let b := match a.2 with
      | AttrValue.group _ => a
      | _ => replaceAttr [] a
    if dropSerialized b then none else some b)

/-- The enriched record `ecshandler.ECSHandler.Handle` builds before
delegating: the fixed ECS attributes, the renamed level, the `labels`
group from the label store, the `log.origin` group from the resolved
frame, and the ECS-store attributes appended as further top-level
attributes (`allAttributes := append([]slog.Attr{...}, plainAttributes...)`;
`r.AddAttrs(allAttributes...)`). -/
def ECSHandler.handleRecord (h : ECSHandler) (ctx : Context) (r : Record) : Record :=
  let labels := GetLabelAttrs ctx
  let plainAttributes := GetECSAttrs ctx
  let f := r.frame
  let allAttributes : List Attr :=
    [(timestampKey, AttrValue.time r.time),
     (messageKey, AttrValue.str r.message),
     (logLevelKey, AttrValue.str (h.levelRenamer r.level)),
     (ecsVersionKey, AttrValue.str ecsVersion),
     (logLoggerKey, AttrValue.str loggerName),
     (labelsKey, AttrValue.group labels),
     (logOriginKey, AttrValue.group
       [(fileNameKey, AttrValue.str f.file),
        (fileLineKey, AttrValue.int f.line),
        (functionKey, AttrValue.str f.function)])]
    ++ plainAttributes
  r.AddAttrs allAttributes

/-- The top-level JSON attributes the handler's output line carries for a
record handled under `ctx`. -/
def ECSHandler.output (h : ECSHandler) (ctx : Context) (r : Record) : List Attr :=
  serializeTop h.replaceAttr (h.handleRecord ctx r)

/-- The embedded `slog.JSONHandler.Handle`: serialize the record and write
the line to the output stream. -/
def JSONHandler.Handle (h : ECSHandler) (r : Record) : Except String Unit :=
  h.write (serializeTop h.replaceAttr r)

/-- `ecshandler.ECSHandler.Handle`: enrich the record with the ECS
attributes and the context stores, then delegate to the underlying
JSON handler. -/
def ECSHandler.Handle (h : ECSHandler) (ctx : Context) (r : Record) : Except String Unit :=
  JSONHandler.Handle h (h.handleRecord ctx r)

/-- The level renamer configured in the package's test:
`"renamed_" + strings.ToLower(level.String())`. -/
def renamedRenamer : Int → String :=
  fun level => "renamed_" ++ goToLower (levelString level)

/-- A middleware that records its wrapping effect in the trace before
running the handler it wraps, used to observe execution order. -/
def traceMW (name : String) : Middleware :=
  fun next ctx r => Event.enter name :: next ctx r

/-- The number of informational log records in a trace. -/
def countInfo (trace : List Event) : Nat :=
  (trace.filter (fun e =>
    match e with
    | Event.info _ _ => true
    | _ => false)).length

/-! Concrete fixtures mirroring the package's test (`TestECSHandler` and
the middleware tests). -/

def emptyCtx : Context := ⟨none, none⟩

def sampleRequest : Request := ⟨"GET", [("Authorization", "abc")]⟩

def sampleFrame : Frame := ⟨"handler_test.go", 42, "TestECSHandler"⟩

def sampleRecord : Record := ⟨1700000000, LevelError, "Test message", sampleFrame, []⟩

def okWrite : List Attr → Except String Unit := fun _ => Except.ok ()

def sampleHandler : ECSHandler := ⟨identityReplaceAttr, okWrite, renamedRenamer⟩

def sampleOpts : MiddlewareOptions :=
  ⟨[], [ExtractHeaderRename "Authorization" "auth.token"], false⟩

def absentOpts : MiddlewareOptions :=
  ⟨[ExtractHeaderRename "X-Trace" "trace.id"], [ExtractHeaderRename "X-Request" "request.id"], true⟩

def emptyHeaderRequest : Request := ⟨"GET", [("X-Token", "")]⟩

def customAttr : Attr := ("custom_key", AttrValue.str "custom_value")

def baseAttr : Attr := ("base_key", AttrValue.str "base_value")

def otherAttr : Attr := ("other_key", AttrValue.str "other_value")

def baseCtx : Context := ⟨some [baseAttr], none⟩

/-! Helper lemmas. -/

theorem getLabel_addLabel (ctx : Context) (attrs : List Attr) :
    GetLabelAttrs (AddLabelAttrs ctx attrs) = attrs ++ GetLabelAttrs ctx := rfl

theorem getECS_addECS (ctx : Context) (attrs : List Attr) :
    GetECSAttrs (addECSAttrs ctx attrs) = attrs ++ GetECSAttrs ctx := rfl

theorem getECS_middlewareCtx (options : MiddlewareOptions) (ctx : Context) (r : Request) :
    GetECSAttrs (middlewareCtx options ctx r)
      = extractAttrs options.ecsExtractors r ++ GetECSAttrs ctx := rfl

theorem getLabel_middlewareCtx (options : MiddlewareOptions) (ctx : Context) (r : Request) :
    GetLabelAttrs (middlewareCtx options ctx r)
      = extractAttrs options.labelExtractors r
        ++ GetLabelAttrs (addECSAttrs ctx (extractAttrs options.ecsExtractors r)) := rfl

theorem extractAttrs_go_none (extractors : List LogExtract) (r : Request) (acc : List Attr)
    (h : ∀ e ∈ extractors, e r = none) :
    extractors.foldl
      (fun acc extract =>
        match extract r with
        | some attr => acc ++ [attr]
        | none => acc)
      acc = acc := by
  induction extractors generalizing acc with
  | nil => rfl
  | cons e es ih =>
    have he : e r = none := h e (List.mem_cons_self _ _)
    rw [List.foldl_cons, he]
    exact ih acc (fun f hf => h f (List.mem_cons_of_mem _ hf))

theorem extractAttrs_none (extractors : List LogExtract) (r : Request)
    (h : ∀ e ∈ extractors, e r = none) :
    extractAttrs extractors r = [] :=
  extractAttrs_go_none extractors r [] h

theorem extractAttrs_singleton (e : LogExtract) (r : Request) (a : Attr)
    (he : e r = some a) :
    extractAttrs [e] r = [a] := by
  simp [extractAttrs, he]

theorem mem_serializeTop_str (replaceAttr : List String → Attr → Attr) (r : Record)
    (k s : String)
    (hmem : (k, AttrValue.str s) ∈ builtinAttrs r ++ r.attrs)
    (hrep : replaceAttr [] (k, AttrValue.str s) = (k, AttrValue.str s)) :
    (k, AttrValue.str s) ∈ serializeTop replaceAttr r := by
  apply List.mem_filterMap.mpr
  refine ⟨(k, AttrValue.str s), hmem, ?_⟩
  simp [hrep, dropSerialized]

theorem applyMiddlewares_traceMW (names : List String) (base : Handler)
    (ctx : Context) (r : Request) :
    ApplyMiddlewares base (names.map traceMW) ctx r
      = names.reverse.map Event.enter ++ base ctx r := by
  induction names generalizing base with
  | nil => rfl
  | cons n ns ih =>
    show ApplyMiddlewares (traceMW n base) (ns.map traceMW) ctx r = _
    rw [ih (traceMW n base)]
    simp [traceMW]

theorem healthz_foldl (checks : List (Dependency × Bool)) (deps : List Dependency)
    (st : String) :
    checks.foldl
      (fun (acc : List Dependency × String) dCheck =>
        (acc.1 ++ [dCheck.1], if dCheck.2 then acc.2 else "KO"))
      (deps, st)
      = (deps ++ checks.map Prod.fst,
         if checks.all (fun c => c.2) then st else "KO") := by
  induction checks generalizing deps st with
  | nil => simp
  | cons c cs ih =>
    rw [List.foldl_cons, ih]
    cases hc : c.2 <;> cases hall : cs.all (fun c => c.2) <;>
      simp [List.all_cons, hc, hall]

/-! Claim theorems. -/

/-- C1: `ApplyMiddlewares` returns the handler obtained by starting from
the base and wrapping the current handler with each middleware in list
order, so the last middleware listed ends up outermost and executes first
on an inbound request; an empty list returns the base handler unchanged. -/
theorem applyMiddlewares_order :
    (∀ base : Handler, ApplyMiddlewares base [] = base)
    ∧ (∀ (base : Handler) (ms : List Middleware) (m : Middleware),
        ApplyMiddlewares base (ms ++ [m]) = m (ApplyMiddlewares base ms))
    ∧ (∀ (names : List String) (base : Handler) (ctx : Context) (r : Request),
        ApplyMiddlewares base (names.map traceMW) ctx r
          = names.reverse.map Event.enter ++ base ctx r) := by
  refine ⟨fun base => rfl, fun base ms m => ?_, applyMiddlewares_traceMW⟩
  simp [ApplyMiddlewares]

/-- C6: the formatter's `Handle` returns an error exactly when the
underlying sink's write returns an error, and it returns that error
unchanged; `Handle` succeeds whenever the sink's write succeeds. -/
theorem handle_error_propagation (h : ECSHandler) (ctx : Context) (r : Record) :
    ECSHandler.Handle h ctx r = h.write (h.output ctx r)
    ∧ (∀ e : String,
        ECSHandler.Handle h ctx r = Except.error e
          ↔ h.write (h.output ctx r) = Except.error e)
    ∧ (ECSHandler.Handle h ctx r = Except.ok ()
        ↔ h.write (h.output ctx r) = Except.ok ()) :=
  ⟨rfl, fun _ => Iff.rfl, Iff.rfl⟩

/-- C8: for every list of healthz check results, the response status is
`"KO"` when at least one check returns `false` and `"OK"` when every check
returns `true`, including the empty list; every dependency is reported. -/
theorem healthz_status (checks : List (Dependency × Bool)) :
    (HealthzHandler checks).status
      = (if checks.all (fun c => c.2) then "OK" else "KO")
    ∧ (HealthzHandler checks).dependencies = checks.map Prod.fst := by
  unfold HealthzHandler
  rw [healthz_foldl]
  exact ⟨rfl, by simp⟩

/-- C9: within one request, attribute extraction happens before the
wrapped handler is invoked (the handler runs under the extracted context),
the wrapped handler's trace precedes any summary record, and exactly one
informational summary record is appended when the request-logging flag is
set, none otherwise. -/
theorem middleware_ordering (options : MiddlewareOptions) (h : Handler)
    (ctx : Context) (r : Request) :
    HTTPAttributesMiddleware options h ctx r
      = h (middlewareCtx options ctx r) r
        ++ (if options.logRequest
            then [Event.info (middlewareCtx options ctx r) "HTTP Request handled"]
            else [])
    ∧ countInfo (HTTPAttributesMiddleware options h ctx r)
      = countInfo (h (middlewareCtx options ctx r) r)
        + (if options.logRequest then 1 else 0) := by
  refine ⟨rfl, ?_⟩
  cases hl : options.logRequest <;>
    simp [HTTPAttributesMiddleware, countInfo, hl, List.filter_append]

/-- C3: an attribute added via `AddLabelAttrs` is contained in the sequence
returned by `GetLabelAttrs` on the resulting context, it remains contained
after further `AddLabelAttrs` calls with other attributes, and previously
stored attributes are never removed by an addition. -/
theorem labelAttrs_roundtrip (ctx : Context) (attrs more : List Attr) (a b : Attr)
    (ha : a ∈ attrs) (hb : b ∈ GetLabelAttrs ctx) :
    a ∈ GetLabelAttrs (AddLabelAttrs ctx attrs)
    ∧ a ∈ GetLabelAttrs (AddLabelAttrs (AddLabelAttrs ctx attrs) more)
    ∧ b ∈ GetLabelAttrs (AddLabelAttrs ctx attrs)
    ∧ b ∈ GetLabelAttrs (AddLabelAttrs (AddLabelAttrs ctx attrs) more) := by
  simp only [getLabel_addLabel, List.mem_append]
  tauto

theorem labelAttrs_roundtrip_witness :
    customAttr ∈ [customAttr]
    ∧ baseAttr ∈ GetLabelAttrs baseCtx
    ∧ (customAttr ∈ GetLabelAttrs (AddLabelAttrs baseCtx [customAttr])
       ∧ customAttr ∈ GetLabelAttrs
           (AddLabelAttrs (AddLabelAttrs baseCtx [customAttr]) [otherAttr])
       ∧ baseAttr ∈ GetLabelAttrs (AddLabelAttrs baseCtx [customAttr])
       ∧ baseAttr ∈ GetLabelAttrs
           (AddLabelAttrs (AddLabelAttrs baseCtx [customAttr]) [otherAttr])) :=
  ⟨List.mem_singleton.mpr rfl, by simp [baseCtx, GetLabelAttrs],
   labelAttrs_roundtrip baseCtx [customAttr] [otherAttr] customAttr baseAttr
     (List.mem_singleton.mpr rfl) (by simp [baseCtx, GetLabelAttrs])⟩

/-- C5: when zero extractors produce a present result, the labels store and
the ECS store readable from the context passed to the wrapped handler are
both empty sequences, and both store keys are present in the context (the
getters return an empty list, not an absent value). -/
theorem middleware_empty_stores (options : MiddlewareOptions) (r : Request)
    (hecs : ∀ e ∈ options.ecsExtractors, e r = none)
    (hlab : ∀ e ∈ options.labelExtractors, e r = none) :
    GetLabelAttrs (middlewareCtx options ⟨none, none⟩ r) = []
    ∧ GetECSAttrs (middlewareCtx options ⟨none, none⟩ r) = []
    ∧ (middlewareCtx options ⟨none, none⟩ r).labelsStore = some []
    ∧ (middlewareCtx options ⟨none, none⟩ r).ecsStore = some [] := by
  have he := extractAttrs_none _ r hecs
  have hl := extractAttrs_none _ r hlab
  refine ⟨?_, ?_, ?_, ?_⟩ <;>
    simp [middlewareCtx, AddLabelAttrs, addECSAttrs, GetLabelAttrs, GetECSAttrs, he, hl]

theorem middleware_empty_stores_witness :
    (∀ e ∈ absentOpts.ecsExtractors, e sampleRequest = none)
    ∧ (∀ e ∈ absentOpts.labelExtractors, e sampleRequest = none)
    ∧ (GetLabelAttrs (middlewareCtx absentOpts ⟨none, none⟩ sampleRequest) = []
       ∧ GetECSAttrs (middlewareCtx absentOpts ⟨none, none⟩ sampleRequest) = []
       ∧ (middlewareCtx absentOpts ⟨none, none⟩ sampleRequest).labelsStore = some []
       ∧ (middlewareCtx absentOpts ⟨none, none⟩ sampleRequest).ecsStore = some []) :=
  ⟨fun e he => by
      simp only [absentOpts] at he
      rw [List.mem_singleton] at he
      subst he
      rfl,
   fun e he => by
      simp only [absentOpts] at he
      rw [List.mem_singleton] at he
      subst he
      rfl,
   middleware_empty_stores absentOpts sampleRequest
     (fun e he => by
       simp only [absentOpts] at he
       rw [List.mem_singleton] at he
       subst he
       rfl)
     (fun e he => by
       simp only [absentOpts] at he
       rw [List.mem_singleton] at he
       subst he
       rfl)⟩

/-- C10: `ExtractHeaderRename` treats a header that is present with an
empty-string value exactly like an absent header: when the named header's
value has length zero the extractor returns the absent outcome, and no
attribute is deposited in the ECS store by the middleware. -/
theorem extractHeaderRename_empty_header (name rename : String) (r : Request)
    (hempty : (r.headerGet name).length = 0) :
    ExtractHeaderRename name rename r = none
    ∧ extractAttrs [ExtractHeaderRename name rename] r = []
    ∧ GetECSAttrs
        (middlewareCtx ⟨[], [ExtractHeaderRename name rename], false⟩ ⟨none, none⟩ r)
      = [] := by
  have h1 : ExtractHeaderRename name rename r = none := by
    simp [ExtractHeaderRename, hempty]
  have h2 : extractAttrs [ExtractHeaderRename name rename] r = [] :=
    extractAttrs_none _ _ (fun e he => by
      rw [List.mem_singleton] at he
      subst he
      exact h1)
  refine ⟨h1, h2, ?_⟩
  rw [getECS_middlewareCtx]
  simp [h2, GetECSAttrs]

theorem extractHeaderRename_empty_header_witness :
    (emptyHeaderRequest.headerGet "X-Token").length = 0
    ∧ (ExtractHeaderRename "X-Token" "auth.token" emptyHeaderRequest = none
       ∧ extractAttrs [ExtractHeaderRename "X-Token" "auth.token"] emptyHeaderRequest = []
       ∧ GetECSAttrs
           (middlewareCtx ⟨[], [ExtractHeaderRename "X-Token" "auth.token"], false⟩
             ⟨none, none⟩ emptyHeaderRequest)
         = []) :=
  ⟨rfl, extractHeaderRename_empty_header "X-Token" "auth.token" emptyHeaderRequest rfl⟩

/-- C4: for every record the formatter's `Handle` passes to the underlying
sink, the output contains the fixed keys `ecs.version` with value
`"8.11.0"` and `log.logger` with value `"log/slog"`, regardless of the
record's content or the context's attribute stores, for both `ReplaceAttr`
configurations that appear in the repository (the package default and the
test's identity). -/
theorem handle_fixed_keys (h : ECSHandler) (ctx : Context) (r : Record)
    (hrep : h.replaceAttr = defaultReplaceAttr ∨ h.replaceAttr = identityReplaceAttr) :
    (ecsVersionKey, AttrValue.str ecsVersion) ∈ h.output ctx r
    ∧ (logLoggerKey, AttrValue.str loggerName) ∈ h.output ctx r := by
  have hm1 : (ecsVersionKey, AttrValue.str ecsVersion)
      ∈ builtinAttrs (h.handleRecord ctx r) ++ (h.handleRecord ctx r).attrs := by
    simp [ECSHandler.handleRecord, Record.AddAttrs]
  have hm2 : (logLoggerKey, AttrValue.str loggerName)
      ∈ builtinAttrs (h.handleRecord ctx r) ++ (h.handleRecord ctx r).attrs := by
    simp [ECSHandler.handleRecord, Record.AddAttrs]
  obtain hrep | hrep := hrep <;>
    exact ⟨mem_serializeTop_str _ _ _ _ hm1 (by rw [hrep]; rfl),
           mem_serializeTop_str _ _ _ _ hm2 (by rw [hrep]; rfl)⟩

theorem handle_fixed_keys_witness :
    (ecsVersionKey, AttrValue.str ecsVersion) ∈ sampleHandler.output emptyCtx sampleRecord
    ∧ (logLoggerKey, AttrValue.str loggerName) ∈ sampleHandler.output emptyCtx sampleRecord :=
  handle_fixed_keys sampleHandler emptyCtx sampleRecord (Or.inr rfl)

/-- C7: the configured level-renaming function is applied exactly once to
a record's severity level: with the renamer
`level -> "renamed_" + lowercase(level)`, handling an error-level record
puts the `log.level` attribute with the literal text `"renamed_error"`
into the output. -/
theorem levelRenamer_applied_once (h : ECSHandler) (ctx : Context) (r : Record)
    (hren : h.levelRenamer = renamedRenamer)
    (hrep : h.replaceAttr = defaultReplaceAttr ∨ h.replaceAttr = identityReplaceAttr)
    (hlvl : r.level = LevelError) :
    (logLevelKey, AttrValue.str "renamed_error") ∈ h.output ctx r := by
  have hr : h.levelRenamer r.level = "renamed_error" := by
    rw [hren, hlvl]; rfl
  have hm : (logLevelKey, AttrValue.str (h.levelRenamer r.level))
      ∈ builtinAttrs (h.handleRecord ctx r) ++ (h.handleRecord ctx r).attrs := by
    simp [ECSHandler.handleRecord, Record.AddAttrs]
  rw [← hr]
  obtain hrep | hrep := hrep <;>
    exact mem_serializeTop_str _ _ _ _ hm (by rw [hrep]; rfl)

theorem levelRenamer_applied_once_witness :
    (logLevelKey, AttrValue.str "renamed_error")
      ∈ sampleHandler.output emptyCtx sampleRecord :=
  levelRenamer_applied_once sampleHandler emptyCtx sampleRecord rfl (Or.inr rfl) rfl

/-- C2: for a request carrying header `Authorization: abc`, with
`ExtractHeaderRename("Authorization", "auth.token")` configured as an ECS
extractor, a record emitted through the formatter under the context the
middleware produced contains the top-level key `auth.token` with value
`"abc"` (ECS-store attributes are attached as additional top-level
attributes, not nested under a group). -/
theorem extractHeaderRename_end_to_end (h : ECSHandler) (options : MiddlewareOptions)
    (req : Request) (ctx0 : Context) (r : Record)
    (hrep : h.replaceAttr = identityReplaceAttr)
    (hhdr : req.headerGet "Authorization" = "abc")
    (hex : options.ecsExtractors = [ExtractHeaderRename "Authorization" "auth.token"]) :
    ("auth.token", AttrValue.str "abc") ∈ h.output (middlewareCtx options ctx0 req) r := by
  have hE : ExtractHeaderRename "Authorization" "auth.token" req
      = some ("auth.token", AttrValue.str "abc") := by
    unfold ExtractHeaderRename
    rw [hhdr]
    rfl
  have hplain : GetECSAttrs (middlewareCtx options ctx0 req)
      = ("auth.token", AttrValue.str "abc") :: GetECSAttrs ctx0 := by
    rw [getECS_middlewareCtx, hex, extractAttrs_singleton _ _ _ hE]
    rfl
  have hm : ("auth.token", AttrValue.str "abc")
      ∈ builtinAttrs (h.handleRecord (middlewareCtx options ctx0 req) r)
        ++ (h.handleRecord (middlewareCtx options ctx0 req) r).attrs := by
    simp [ECSHandler.handleRecord, Record.AddAttrs, hplain]
  exact mem_serializeTop_str _ _ _ _ hm (by rw [hrep]; rfl)

theorem extractHeaderRename_end_to_end_witness :
    ("auth.token", AttrValue.str "abc")
      ∈ sampleHandler.output (middlewareCtx sampleOpts emptyCtx sampleRequest) sampleRecord :=
  extractHeaderRename_end_to_end sampleHandler sampleOpts sampleRequest emptyCtx
    sampleRecord rfl rfl rfl

end Serene
